import Mathlib

/-!
Verification development for the `emm` ETL memory monitor.

The definitions below are a shallow embedding of the monitor-and-decide
loop of `src/monitor.ts` (`memoryMonitor`, `checkMemoryOnce`, the close
handler) and of the file helpers of `src/utils/fileHelpers.ts`
(`updateSummaryFile`, `extractMemoryData`).  JavaScript numbers that are
only ever nonnegative integers are modelled as `Nat`; the child's close
code (`number | null`, possibly negative by convention) is `Option Int`;
`Math.round(a / b)` on nonnegative integers is exact rational
round-half-up, `(2*a + b) / (2*b)` in `Nat`.
-/

namespace Emm

/-- Final status strings used by the monitor: `'SUCCESS' | 'FAILED' | 'KILLED'`. -/
inductive Status
  | SUCCESS
  | FAILED
  | KILLED
deriving DecidableEq

/-- The configuration fields of `MonitorConfig` that the monitor loop reads
when deciding whether to record a sample and whether to kill:
`memoryLimit` (MB), `killOnLimit`, `checkInterval` (seconds, 0 = lightweight). -/
structure MonitorConfig where
  memoryLimit : Nat
  killOnLimit : Bool
  checkInterval : Nat
deriving DecidableEq

/-- The mutable `MemoryStats` accumulator of `memoryMonitor` (the fields the
result synthesis reads; `startTime`/`endTime` wall-clock bookkeeping is
abstracted into the `elapsed` argument of each check). -/
structure MemoryStats where
  maxMemoryMB : Nat
  totalMemoryMB : Nat
  sampleCount : Nat
  exitCode : Option Int
  status : Option Status
deriving DecidableEq

/-- The initial accumulator: `{ maxMemoryMB: 0, totalMemoryMB: 0, sampleCount: 0,
exitCode: null, status: null }`. -/
def initStats : MemoryStats :=
  { maxMemoryMB := 0, totalMemoryMB := 0, sampleCount := 0
    exitCode := none, status := none }

/-- `Math.round(a / b)` for nonnegative integers `a` and positive `b`:
round half toward positive infinity. -/
def jsRound (a b : Nat) : Nat := (2 * a + b) / (2 * b)

/-- One line of the per-run log, at the granularity the round-trip claims
need: either a memory-sample line `[<e>s] Memory: <m>MB` (recorded with its
two integers) or any other line (headers, the kill message, `[stdout]`/
`[stderr]` lines, completion lines), kept as raw text. -/
inductive LogEvent
  | sample (elapsed memMB : Nat)
  | other (line : List Char)
deriving DecidableEq

/-- `getMemoryKB`: the adapter parses `ps -o rss=` output; on spawn error or
unparsable output (`isNaN`) it resolves the sentinel `0`, otherwise the
parsed resident size in KB. -/
def getMemoryKB (parsed : Option Nat) : Nat :=
  match parsed with
  | none => 0
  | some kb => kb

/-- Output of one `checkMemoryOnce` call: the updated accumulator, the log
lines it wrote (in write order), and whether it issued `kill('SIGKILL')`. -/
structure CheckOut where
  stats : MemoryStats
  logs : List LogEvent
  killed : Bool
deriving DecidableEq

/-- The kill message written to the log right before the SIGKILL
(`Memory usage exceeded <limit>MB (actual: <mem>MB). Killing process (<pid>).`),
kept abstract as an `other` line parameterised by the two numbers rendered
into it.  Rendering of the numbers is irrelevant to every claim, so the
placeholder text records only which line this is. -/
def killMessageLine (limitMB memMB : Nat) : LogEvent :=
  LogEvent.other ("kill-message".toList ++ (Nat.repr limitMB).toList ++ (Nat.repr memMB).toList)

/-- Shallow embedding of `checkMemoryOnce` (monitor.ts lines 215-258).
`memKB` is the value the `getMemoryKB` promise resolved with for this tick
and `elapsed` the rounded elapsed seconds at the tick.  If `memKB > 0` the
sample is recorded (count, total, max updated), the sample line is written,
and then, if `killOnLimit` and the sample exceeds the limit, the kill
message is written, SIGKILL is issued and `exitCode := 137`,
`status := KILLED` are stored in the accumulator.  If `memKB = 0` nothing
at all happens. -/
def checkMemoryOnce (cfg : MonitorConfig) (st : MemoryStats) (memKB elapsed : Nat) : CheckOut :=
  if memKB > 0 then
    let memMB := jsRound memKB 1024
    let st1 : MemoryStats :=
      { st with
        sampleCount := st.sampleCount + 1
        totalMemoryMB := st.totalMemoryMB + memMB
        maxMemoryMB := max st.maxMemoryMB memMB }
    if cfg.killOnLimit ∧ memMB > cfg.memoryLimit then
      { stats := { st1 with exitCode := some 137, status := some Status.KILLED }
        logs := [LogEvent.sample elapsed memMB, killMessageLine cfg.memoryLimit memMB]
        killed := true }
    else
      { stats := st1, logs := [LogEvent.sample elapsed memMB], killed := false }
  else
    { stats := st, logs := [], killed := false }

/-- Output of a whole sequence of checks: final accumulator, concatenated
log lines, number of kill signals issued. -/
structure RunOut where
  stats : MemoryStats
  logs : List LogEvent
  kills : Nat
deriving DecidableEq

/-- Fold `checkMemoryOnce` over a list of ticks; each tick is
`(memKB, elapsed)` — the reading obtained at that tick and the elapsed
seconds.  This covers interval mode (one tick per `checkInterval` seconds)
and lightweight mode (start / 5 s / 60 s / close ticks) alike. -/
def runChecks (cfg : MonitorConfig) (st : MemoryStats) : List (Nat × Nat) → RunOut
  | [] => { stats := st, logs := [], kills := 0 }
  | (memKB, elapsed) :: rest =>
    let c := checkMemoryOnce cfg st memKB elapsed
    let r := runChecks cfg c.stats rest
    { stats := r.stats, logs := c.logs ++ r.logs, kills := (if c.killed then 1 else 0) + r.kills }

/-- The finalized fields of `MonitorResult` that the claims are about. -/
structure MonitorResult where
  exitCode : Int
  avgMemoryMB : Nat
  maxMemoryMB : Nat
  status : Status
deriving DecidableEq

/-- Shallow embedding of the `close` handler's result synthesis
(monitor.ts lines 320-337): `exitCode = code === null ? 1 : code`;
`stats.exitCode = exitCode`; `stats.status = exitCode === 0 ? 'SUCCESS' :
'FAILED'` (note: unconditionally, even when the accumulator already holds
`KILLED`); `avgMemoryMB = sampleCount > 0 ? Math.round(total / count) : 0`;
the result carries `stats.status` and the local `exitCode`. -/
def finalize (st : MemoryStats) (code : Option Int) : MonitorResult :=
  let exitCode : Int := code.getD 1
  let status : Status := if exitCode = 0 then Status.SUCCESS else Status.FAILED
  let avgMemoryMB : Nat :=
    if st.sampleCount > 0 then jsRound st.totalMemoryMB st.sampleCount else 0
  { exitCode := exitCode, avgMemoryMB := avgMemoryMB
    maxMemoryMB := st.maxMemoryMB, status := status }

/-- A whole monitored run: the checks that fired (in order, final
lightweight check included), then the close event with the child's
`code : number | null`. -/
def memoryMonitorRun (cfg : MonitorConfig) (checks : List (Nat × Nat)) (code : Option Int) :
    MonitorResult × RunOut :=
  let r := runChecks cfg initStats checks
  (finalize r.stats code, r)

/-- The `residentMB` values of the samples a sequence of checks records,
in recording order: `Math.round(memKB/1024)` for every tick whose reading
is positive. -/
def recordedMB (checks : List (Nat × Nat)) : List Nat :=
  checks.filterMap (fun t => if t.1 > 0 then some (jsRound t.1 1024) else none)

/-- JavaScript `String.prototype.split` with a single-character separator:
`"".split(sep) = [""]`, consecutive separators yield empty pieces, and the
pieces joined back with the separator give the original string. -/
def splitOnChar (sep : Char) : List Char → List (List Char)
  | [] => [[]]
  | c :: cs =>
    if c = sep then [] :: splitOnChar sep cs
    else
      match splitOnChar sep cs with
      | [] => [[c]]
      | p :: ps => (c :: p) :: ps

/-- `Array.prototype.join` with a single-character separator (inverse of
`splitOnChar`). -/
def joinChar (sep : Char) : List (List Char) → List Char
  | [] => []
  | [p] => p
  | p :: ps => p ++ sep :: joinChar sep ps

/-- The command tokenization of `memoryMonitor` for a string command
(monitor.ts lines 116-119): `parts = command.split(' ')`,
`cmd = parts[0]`, `args = parts.slice(1)`. -/
def parseCommand (s : List Char) : List Char × List (List Char) :=
  match splitOnChar ' ' s with
  | [] => ([], [])
  | p :: ps => (p, ps)

/-- Decimal rendering of a nonnegative integer, digit by digit — the
number-to-string conversion JavaScript template literals perform for
nonnegative integers. -/
def digitChar (d : Nat) : Char :=
  if d = 0 then '0' else if d = 1 then '1' else if d = 2 then '2'
  else if d = 3 then '3' else if d = 4 then '4' else if d = 5 then '5'
  else if d = 6 then '6' else if d = 7 then '7' else if d = 8 then '8' else '9'

/-- Decimal digit string of `n`, most significant digit first. -/
def toDecimal (n : Nat) : List Char :=
  if _h : n < 10 then [digitChar n]
  else toDecimal (n / 10) ++ [digitChar (n % 10)]
decreasing_by exact Nat.div_lt_self (by omega) (by omega)

/-- Numeric value of a digit character (`parseInt` of one digit). -/
def digitVal (c : Char) : Nat := c.toNat - 48

/-- Numeric value of a digit string, as `parseInt` computes it. -/
def digitsVal (l : List Char) : Nat := l.foldl (fun a c => 10 * a + digitVal c) 0

/-- Greedy `\d+` at the head of the input: take the maximal run of digit
characters; fail if it is empty, else return its value and the rest. -/
def parseNatPrefix (l : List Char) : Option (Nat × List Char) :=
  let ds := l.takeWhile Char.isDigit
  if ds.isEmpty then none else some (digitsVal ds, l.dropWhile Char.isDigit)

/-- Match a literal string at the head of the input, returning the rest. -/
def expectLit (pat l : List Char) : Option (List Char) :=
  match pat, l with
  | [], rest => some rest
  | _ :: _, [] => none
  | p :: ps, c :: cs => if c = p then expectLit ps cs else none

/-- One memory data point extracted from a log line
(`MemoryPoint` of analyzer.ts). -/
structure MemoryPoint where
  timestamp : Nat
  memory : Nat
deriving DecidableEq

/-- Attempt to match the regex `\[(\d+)s\] Memory: (\d+)MB` anchored at the
head of the input.  Greedy `\d+` needs no backtracking here: a shorter
digit run is always followed by another digit, which can match neither `s`
nor `M`. -/
def matchAt : List Char → Option MemoryPoint
  | [] => none
  | c :: rest =>
    if c = '[' then
      match parseNatPrefix rest with
      | none => none
      | some (t, rest1) =>
        match expectLit "s] Memory: ".toList rest1 with
        | none => none
        | some rest2 =>
          match parseNatPrefix rest2 with
          | none => none
          | some (m, rest3) =>
            match expectLit "MB".toList rest3 with
            | none => none
            | some _ => some { timestamp := t, memory := m }
    else none

/-- Leftmost match of the regex `\[(\d+)s\] Memory: (\d+)MB` in a line —
the semantics of JavaScript `line.match(memoryRegex)` restricted to the
two captures `extractMemoryData` reads. -/
def findMatch : List Char → Option MemoryPoint
  | [] => none
  | c :: cs =>
    match matchAt (c :: cs) with
    | some r => some r
    | none => findMatch cs

/-- Shallow embedding of `extractMemoryData` (fileHelpers.ts lines 98-116):
split the file content on `'\n'`, and for each line keep the captures of
the first regex match, if any, in line order. -/
def extractMemoryData (content : List Char) : List MemoryPoint :=
  (splitOnChar '\n' content).filterMap findMatch

/-- The text of the sample line `checkMemoryOnce` writes:
`[<elapsed>s] Memory: <memMB>MB`. -/
def sampleLineText (elapsed memMB : Nat) : List Char :=
  '[' :: toDecimal elapsed ++ "s] Memory: ".toList ++ toDecimal memMB ++ "MB".toList

/-- The text of one log event. -/
def lineText : LogEvent → List Char
  | LogEvent.sample e m => sampleLineText e m
  | LogEvent.other s => s

/-- The content of the log file after the run: `writeLog` appends
`message + '\n'` for every event, in order. -/
def logContent (evs : List LogEvent) : List Char :=
  evs.foldr (fun ev acc => lineText ev ++ '\n' :: acc) []

/-- The samples a list of log events records, in recording order. -/
def recordedPoints (evs : List LogEvent) : List MemoryPoint :=
  evs.filterMap (fun ev =>
    match ev with
    | LogEvent.sample e m => some { timestamp := e, memory := m }
    | LogEvent.other _ => none)

/-- Whether a log event's text is free of (spurious) regex matches: sample
lines are written by the monitor itself; an `other` line is match-free when
none of its newline-separated pieces matches the sample regex. -/
def lineMatchFree (ev : LogEvent) : Bool :=
  match ev with
  | LogEvent.sample _ _ => true
  | LogEvent.other s => (splitOnChar '\n' s).all fun p => (findMatch p).isNone

/-- One entry of the Run Summary file (`RunSummaryData` of fileHelpers.ts). -/
structure RunSummaryData where
  timestamp : String
  duration : Nat
  exit_code : Int
  avg_memory_mb : Nat
  max_memory_mb : Nat
  status : String
deriving DecidableEq

/-- The state of the summary file as `updateSummaryFile` distinguishes it:
absent, present but not parsable as JSON (the `catch` that starts fresh),
or parsed to `{ runs: [...] }`. -/
inductive SummaryFileState
  | absent
  | unparsable
  | valid (runs : List RunSummaryData)
deriving DecidableEq

/-- The run entries currently stored in the file (none when the file is
absent or unparsable). -/
def storedRuns : SummaryFileState → List RunSummaryData
  | SummaryFileState.valid l => l
  | _ => []

/-- Shallow embedding of `updateSummaryFile` (fileHelpers.ts lines 55-90):
read the existing data if the file exists (starting fresh with
`{ runs: [] }` when absent or unparsable), push the new entry, and write
the whole object back with `JSON.stringify` — so the resulting file always
parses to `{ runs: prior ++ [new] }`. -/
def updateSummaryFile (s : SummaryFileState) (r : RunSummaryData) : SummaryFileState :=
  SummaryFileState.valid (storedRuns s ++ [r])

/-- Append a list of run entries one at a time, in order. -/
def appendRuns (s : SummaryFileState) (rs : List RunSummaryData) : SummaryFileState :=
  rs.foldl updateSummaryFile s

/-- Whether the file content is valid JSON of the summary shape (the file
was last written by `JSON.stringify` of a `SummaryData`). -/
def isValidJsonSummary : SummaryFileState → Bool
  | SummaryFileState.valid _ => true
  | _ => false

/-- A concrete run entry, for witness instantiations. -/
def sampleRunEntry : RunSummaryData :=
  { timestamp := "2025-01-01T00_00_00_000Z", duration := 1, exit_code := 0
    avg_memory_mb := 2, max_memory_mb := 3, status := "SUCCESS" }

/-- Which lifecycle checkpoint a lightweight-mode memory check belongs to:
the immediate start check, the early (after 5 s) check, the steady-state
(after 60 s) check, or the final check in the close handler. -/
inductive CheckTag
  | start
  | early
  | steady
  | final
deriving DecidableEq

/-- The two `already fired` booleans of lightweight mode
(monitor.ts lines 210-211). -/
structure LightFlags where
  isStartPhaseComplete : Bool
  isMiddlePhaseComplete : Bool
deriving DecidableEq

/-- Both flags start false. -/
def initFlags : LightFlags := { isStartPhaseComplete := false, isMiddlePhaseComplete := false }

/-- One tick of the lightweight-mode observer (monitor.ts lines 271-285),
at elapsed run time `runTime` milliseconds: fire the early check if it has
not fired and `runTime > 5000`, then the steady-state check if it has not
fired and `runTime > 60000`; return the checks fired and the updated flags. -/
def observerTick (f : LightFlags) (runTime : Nat) : List CheckTag × LightFlags :=
  let s1 :=
    if f.isStartPhaseComplete = false ∧ runTime > 5000 then
      ([CheckTag.early], { f with isStartPhaseComplete := true })
    else ([], f)
  let s2 :=
    if s1.2.isMiddlePhaseComplete = false ∧ runTime > 60000 then
      (s1.1 ++ [CheckTag.steady], { s1.2 with isMiddlePhaseComplete := true })
    else s1
  s2

/-- All checks the observer fires over a sequence of tick times. -/
def observerRun (f : LightFlags) : List Nat → List CheckTag
  | [] => []
  | t :: ts =>
    let s := observerTick f t
    s.1 ++ observerRun s.2 ts

/-- The full sequence of memory checks of a lightweight-mode run, given the
elapsed times at which the 5-second observer ticked: the immediate start
check, then the observer's checks, then the one final check performed in
the close handler before the result is finalized. -/
def lightweightChecks (ticks : List Nat) : List CheckTag :=
  CheckTag.start :: (observerRun initFlags ticks ++ [CheckTag.final])

/-- The three sampling-statistics fields of the accumulator after a
sequence of checks: count, sum and max of the recorded `residentMB`
values, on top of whatever the accumulator already held. -/
theorem runChecks_stats_inv (cfg : MonitorConfig) :
    ∀ (checks : List (Nat × Nat)) (st : MemoryStats),
      (runChecks cfg st checks).stats.sampleCount
          = st.sampleCount + (recordedMB checks).length ∧
      (runChecks cfg st checks).stats.totalMemoryMB
          = st.totalMemoryMB + (recordedMB checks).sum ∧
      (runChecks cfg st checks).stats.maxMemoryMB
          = max st.maxMemoryMB ((recordedMB checks).foldr max 0) := by
  intro checks
  induction checks with
  | nil => intro st; simp [runChecks, recordedMB]
  | cons c rest ih =>
    intro st
    obtain ⟨memKB, elapsed⟩ := c
    by_cases hm : memKB > 0
    · by_cases hk : cfg.killOnLimit ∧ jsRound memKB 1024 > cfg.memoryLimit
      · simp only [runChecks, checkMemoryOnce, hm, if_pos, hk, if_true, recordedMB,
          List.filterMap_cons, ite_true, reduceIte]
        obtain ⟨h1, h2, h3⟩ := ih
            { st with
              sampleCount := st.sampleCount + 1
              totalMemoryMB := st.totalMemoryMB + jsRound memKB 1024
              maxMemoryMB := max st.maxMemoryMB (jsRound memKB 1024)
              exitCode := some 137, status := some Status.KILLED }
        refine ⟨?_, ?_, ?_⟩ <;>
          simp_all [recordedMB, List.filterMap_cons] <;> omega
      · simp only [runChecks, checkMemoryOnce, hm, if_pos, hk, if_false, recordedMB,
          List.filterMap_cons, ite_true, reduceIte]
        obtain ⟨h1, h2, h3⟩ := ih
            { st with
              sampleCount := st.sampleCount + 1
              totalMemoryMB := st.totalMemoryMB + jsRound memKB 1024
              maxMemoryMB := max st.maxMemoryMB (jsRound memKB 1024) }
        refine ⟨?_, ?_, ?_⟩ <;>
          simp_all [recordedMB, List.filterMap_cons] <;> omega
    · simp only [runChecks, checkMemoryOnce, hm, if_false, recordedMB,
        List.filterMap_cons, reduceIte]
      obtain ⟨h1, h2, h3⟩ := ih st
      refine ⟨?_, ?_, ?_⟩ <;> simp_all [recordedMB]

/-- C2: for every run, the finalized result's `maxMemoryMB` is the maximum
of the `residentMB` values of all recorded samples, and `avgMemoryMB` is
the (half-up) rounding of their mean — `0` for both when zero samples were
recorded, with no division by zero. -/
theorem C2_stats_of_samples (cfg : MonitorConfig) (checks : List (Nat × Nat))
    (code : Option Int) :
    (memoryMonitorRun cfg checks code).1.maxMemoryMB = (recordedMB checks).foldr max 0 ∧
    (memoryMonitorRun cfg checks code).1.avgMemoryMB =
      (if (recordedMB checks).length = 0 then 0
       else jsRound (recordedMB checks).sum (recordedMB checks).length) := by
  obtain ⟨h1, h2, h3⟩ := runChecks_stats_inv cfg checks initStats
  simp only [initStats, Nat.zero_add, Nat.zero_max] at h1 h2 h3
  constructor
  · simp [memoryMonitorRun, finalize, initStats, h3]
  · simp only [memoryMonitorRun, finalize, initStats, h1, h2]
    by_cases h : (recordedMB checks).length = 0
    · simp [h]
    · rw [if_pos (Nat.pos_of_ne_zero h), if_neg h]

/-- C10: whenever the close event reports a `null` exit code (termination
by a signal), the result records `exitCode = 1`, and consequently the
status computed at completion is `FAILED`. -/
theorem C10_null_code_failed (cfg : MonitorConfig) (checks : List (Nat × Nat)) :
    (memoryMonitorRun cfg checks none).1.exitCode = 1 ∧
    (memoryMonitorRun cfg checks none).1.status = Status.FAILED := by
  constructor <;> simp [memoryMonitorRun, finalize]

/-- C4: with `killOnLimit = false` no kill signal is ever issued, whatever
the readings (both modes go through the same `checkMemoryOnce`), and the
final status is determined solely by the child's natural exit code. -/
theorem C4_no_kill_when_disabled (limit interval : Nat) (checks : List (Nat × Nat))
    (code : Option Int) :
    (memoryMonitorRun { memoryLimit := limit, killOnLimit := false, checkInterval := interval }
        checks code).2.kills = 0 ∧
    (memoryMonitorRun { memoryLimit := limit, killOnLimit := false, checkInterval := interval }
        checks code).1.exitCode = code.getD 1 ∧
    (memoryMonitorRun { memoryLimit := limit, killOnLimit := false, checkInterval := interval }
        checks code).1.status =
      (if code.getD 1 = 0 then Status.SUCCESS else Status.FAILED) := by
  refine ⟨?_, by simp [memoryMonitorRun, finalize], by simp [memoryMonitorRun, finalize]⟩
  simp only [memoryMonitorRun]
  generalize initStats = st
  induction checks generalizing st with
  | nil => simp [runChecks]
  | cons c rest ih =>
    obtain ⟨memKB, elapsed⟩ := c
    by_cases hm : memKB > 0 <;>
      simp [runChecks, checkMemoryOnce, hm, ih]

/-- A tick whose reading is the unavailability sentinel `0` changes
nothing: the run over `pre ++ (0, e) :: post` equals the run over
`pre ++ post`. -/
theorem runChecks_skip_zero (cfg : MonitorConfig) (e : Nat) (post : List (Nat × Nat)) :
    ∀ (pre : List (Nat × Nat)) (st : MemoryStats),
      runChecks cfg st (pre ++ (0, e) :: post) = runChecks cfg st (pre ++ post)
  | [], st => by simp [runChecks, checkMemoryOnce]
  | c :: pre, st => by
    obtain ⟨memKB, elapsed⟩ := c
    simp only [List.cons_append, runChecks, List.append_eq]
    rw [runChecks_skip_zero cfg e post pre]

/-- C7: at a tick where the memory reading is unavailable (the adapter
resolved the sentinel `0`, covering both an unparsable `ps` output and a
spawn error), no sample is recorded — count, total and max are unchanged,
nothing is logged, no kill happens — and the run continues to the same
final result as if the tick had not occurred. -/
theorem C7_sentinel_tick_is_noop (cfg : MonitorConfig) (st : MemoryStats) (e : Nat)
    (pre post : List (Nat × Nat)) (code : Option Int) :
    checkMemoryOnce cfg st (getMemoryKB none) e
        = { stats := st, logs := [], killed := false } ∧
    memoryMonitorRun cfg (pre ++ (getMemoryKB none, e) :: post) code
        = memoryMonitorRun cfg (pre ++ post) code := by
  constructor
  · simp [checkMemoryOnce, getMemoryKB]
  · simp only [memoryMonitorRun, getMemoryKB]
    rw [runChecks_skip_zero]

/-- C1 (code bug): with `killOnLimit = true`, `memoryLimit = 100` MB and a
single sample reading `204800` KB (= 200 MB > 100 MB), the monitor issues
the kill and stores `status = KILLED`, `exitCode = 137` in the accumulator
— but the close handler (which fires with `code = null` after a SIGKILL)
unconditionally overwrites them, so the finalized result has
`status = FAILED` and `exitCode = 1`, not `KILLED` / `137` as specified. -/
theorem C1_killed_status_overwritten_at_close :
    (memoryMonitorRun { memoryLimit := 100, killOnLimit := true, checkInterval := 2 }
        [(204800, 1)] none).2.kills = 1 ∧
    (runChecks { memoryLimit := 100, killOnLimit := true, checkInterval := 2 }
        initStats [(204800, 1)]).stats.status = some Status.KILLED ∧
    (runChecks { memoryLimit := 100, killOnLimit := true, checkInterval := 2 }
        initStats [(204800, 1)]).stats.exitCode = some 137 ∧
    (memoryMonitorRun { memoryLimit := 100, killOnLimit := true, checkInterval := 2 }
        [(204800, 1)] none).1.status = Status.FAILED ∧
    (memoryMonitorRun { memoryLimit := 100, killOnLimit := true, checkInterval := 2 }
        [(204800, 1)] none).1.exitCode = 1 := by
  refine ⟨?_, ?_, ?_, ?_, ?_⟩ <;> decide

/-- Appending to a parsed summary file appends to its `runs` list. -/
theorem appendRuns_valid (rs : List RunSummaryData) :
    ∀ l : List RunSummaryData, appendRuns (SummaryFileState.valid l) rs
      = SummaryFileState.valid (l ++ rs) := by
  induction rs with
  | nil => intro l; simp [appendRuns]
  | cons r rs ih =>
    intro l
    simp only [appendRuns, List.foldl_cons, updateSummaryFile, storedRuns]
    have := ih (l ++ [r])
    simp only [appendRuns] at this
    rw [this, List.append_assoc]
    rfl

/-- C6: every append of a run entry leaves all previously stored entries
unchanged, in their original order, as a prefix of the new `runs` list,
with the new entry at the end — for every prior state of the summary file
(absent, unparsable, or parsed). -/
theorem C6_append_preserves_prior (s : SummaryFileState) (r : RunSummaryData) :
    storedRuns (updateSummaryFile s r) = storedRuns s ++ [r] ∧
    (storedRuns (updateSummaryFile s r)).take (storedRuns s).length = storedRuns s := by
  refine ⟨rfl, ?_⟩
  simp [updateSummaryFile, storedRuns, List.take_left]

/-- C5: appending N run entries one at a time, starting from an absent
summary file, yields a file whose `runs` list is exactly those N entries in
append order, and after every single one of the N appends the file content
is valid JSON of the summary shape. -/
theorem C5_append_from_absent (rs pre suf : List RunSummaryData) :
    storedRuns (appendRuns SummaryFileState.absent rs) = rs ∧
    (rs = pre ++ suf → pre ≠ [] →
      isValidJsonSummary (appendRuns SummaryFileState.absent pre) = true) := by
  constructor
  · match rs with
    | [] => rfl
    | r :: rest =>
      show storedRuns (appendRuns (updateSummaryFile SummaryFileState.absent r) rest) = _
      rw [show updateSummaryFile SummaryFileState.absent r
            = SummaryFileState.valid [r] from rfl, appendRuns_valid]
      rfl
  · intro _ hpre
    match pre, hpre with
    | r :: rest, _ =>
      show isValidJsonSummary (appendRuns (updateSummaryFile SummaryFileState.absent r) rest) = true
      rw [show updateSummaryFile SummaryFileState.absent r
            = SummaryFileState.valid [r] from rfl, appendRuns_valid]
      rfl

/-- C5 witness: two appends from an absent file, checked concretely. -/
theorem C5_append_from_absent_witness :
    storedRuns (appendRuns SummaryFileState.absent [sampleRunEntry, sampleRunEntry])
        = [sampleRunEntry, sampleRunEntry] ∧
    isValidJsonSummary (appendRuns SummaryFileState.absent [sampleRunEntry]) = true :=
  ⟨(C5_append_from_absent [sampleRunEntry, sampleRunEntry] [] []).1,
   (C5_append_from_absent [sampleRunEntry, sampleRunEntry] [sampleRunEntry] [sampleRunEntry]).2
     rfl (by decide)⟩

/-- Evaluation of one observer tick when both checkpoints fire. -/
theorem observerTick_both (f : LightFlags) (t : Nat)
    (h1 : f.isStartPhaseComplete = false ∧ t > 5000)
    (h2 : f.isMiddlePhaseComplete = false ∧ t > 60000) :
    observerTick f t = ([CheckTag.early, CheckTag.steady],
      { isStartPhaseComplete := true, isMiddlePhaseComplete := true }) := by
  obtain ⟨a, b⟩ := h1
  obtain ⟨c, d⟩ := h2
  simp [observerTick, a, b, c, d]

/-- Evaluation of one observer tick when only the early checkpoint fires. -/
theorem observerTick_early_only (f : LightFlags) (t : Nat)
    (h1 : f.isStartPhaseComplete = false ∧ t > 5000)
    (h2 : ¬(f.isMiddlePhaseComplete = false ∧ t > 60000)) :
    observerTick f t = ([CheckTag.early],
      { isStartPhaseComplete := true, isMiddlePhaseComplete := f.isMiddlePhaseComplete }) := by
  obtain ⟨a, b⟩ := h1
  simp [observerTick, a, b, h2]

/-- Evaluation of one observer tick when only the steady checkpoint fires. -/
theorem observerTick_steady_only (f : LightFlags) (t : Nat)
    (h1 : ¬(f.isStartPhaseComplete = false ∧ t > 5000))
    (h2 : f.isMiddlePhaseComplete = false ∧ t > 60000) :
    observerTick f t = ([CheckTag.steady],
      { isStartPhaseComplete := f.isStartPhaseComplete, isMiddlePhaseComplete := true }) := by
  obtain ⟨c, d⟩ := h2
  simp [observerTick, h1, c, d]

/-- Evaluation of one observer tick when neither checkpoint fires. -/
theorem observerTick_none (f : LightFlags) (t : Nat)
    (h1 : ¬(f.isStartPhaseComplete = false ∧ t > 5000))
    (h2 : ¬(f.isMiddlePhaseComplete = false ∧ t > 60000)) :
    observerTick f t = ([], f) := by
  simp [observerTick, h1, h2]

/-- The observer fires the early checkpoint at most once, and never at all
once `isStartPhaseComplete` is set, over any sequence of tick times. -/
theorem observer_early_at_most_once :
    ∀ (ts : List Nat) (f : LightFlags),
      (observerRun f ts).count CheckTag.early ≤ 1 ∧
      (f.isStartPhaseComplete = true → (observerRun f ts).count CheckTag.early = 0) := by
  intro ts
  induction ts with
  | nil => intro f; simp [observerRun]
  | cons t ts ih =>
    intro f
    simp only [observerRun, List.count_append]
    by_cases h1 : f.isStartPhaseComplete = false ∧ t > 5000
    · by_cases h2 : f.isMiddlePhaseComplete = false ∧ t > 60000
      · simp only [observerTick_both f t h1 h2]
        obtain ⟨_, ih2⟩ := ih { isStartPhaseComplete := true, isMiddlePhaseComplete := true }
        rw [ih2 rfl]
        exact ⟨by decide, fun hc => absurd (h1.1 ▸ hc) (by decide)⟩
      · simp only [observerTick_early_only f t h1 h2]
        obtain ⟨_, ih2⟩ := ih { isStartPhaseComplete := true,
                                isMiddlePhaseComplete := f.isMiddlePhaseComplete }
        rw [ih2 rfl]
        exact ⟨by decide, fun hc => absurd (h1.1 ▸ hc) (by decide)⟩
    · by_cases h2 : f.isMiddlePhaseComplete = false ∧ t > 60000
      · simp only [observerTick_steady_only f t h1 h2]
        obtain ⟨ih1, ih2⟩ := ih { isStartPhaseComplete := f.isStartPhaseComplete,
                                  isMiddlePhaseComplete := true }
        have hc0 : List.count CheckTag.early [CheckTag.steady] = 0 := by decide
        rw [hc0]
        exact ⟨by omega, fun hc => by rw [ih2 hc]⟩
      · simp only [observerTick_none f t h1 h2]
        obtain ⟨ih1, ih2⟩ := ih f
        have hc0 : List.count CheckTag.early ([] : List CheckTag) = 0 := rfl
        rw [hc0]
        exact ⟨by omega, fun hc => by rw [ih2 hc]⟩

/-- The observer fires the steady-state checkpoint at most once, and never
at all once `isMiddlePhaseComplete` is set, over any sequence of tick
times. -/
theorem observer_steady_at_most_once :
    ∀ (ts : List Nat) (f : LightFlags),
      (observerRun f ts).count CheckTag.steady ≤ 1 ∧
      (f.isMiddlePhaseComplete = true → (observerRun f ts).count CheckTag.steady = 0) := by
  intro ts
  induction ts with
  | nil => intro f; simp [observerRun]
  | cons t ts ih =>
    intro f
    simp only [observerRun, List.count_append]
    by_cases h1 : f.isStartPhaseComplete = false ∧ t > 5000
    · by_cases h2 : f.isMiddlePhaseComplete = false ∧ t > 60000
      · simp only [observerTick_both f t h1 h2]
        obtain ⟨_, ih2⟩ := ih { isStartPhaseComplete := true, isMiddlePhaseComplete := true }
        rw [ih2 rfl]
        exact ⟨by decide, fun hc => absurd (h2.1 ▸ hc) (by decide)⟩
      · simp only [observerTick_early_only f t h1 h2]
        obtain ⟨ih1, ih2⟩ := ih { isStartPhaseComplete := true,
                                  isMiddlePhaseComplete := f.isMiddlePhaseComplete }
        have hc0 : List.count CheckTag.steady [CheckTag.early] = 0 := by decide
        rw [hc0]
        exact ⟨by omega, fun hc => by rw [ih2 hc]⟩
    · by_cases h2 : f.isMiddlePhaseComplete = false ∧ t > 60000
      · simp only [observerTick_steady_only f t h1 h2]
        obtain ⟨_, ih2⟩ := ih { isStartPhaseComplete := f.isStartPhaseComplete,
                                isMiddlePhaseComplete := true }
        rw [ih2 rfl]
        exact ⟨by decide, fun hc => absurd (h2.1 ▸ hc) (by decide)⟩
      · simp only [observerTick_none f t h1 h2]
        obtain ⟨ih1, ih2⟩ := ih f
        have hc0 : List.count CheckTag.steady ([] : List CheckTag) = 0 := rfl
        rw [hc0]
        exact ⟨by omega, fun hc => by rw [ih2 hc]⟩

/-- The observer only ever fires the early and steady-state checkpoints. -/
theorem observer_only_early_steady :
    ∀ (ts : List Nat) (f : LightFlags) (c : CheckTag), c ∈ observerRun f ts →
      c = CheckTag.early ∨ c = CheckTag.steady := by
  intro ts
  induction ts with
  | nil => intro f c h; simp [observerRun] at h
  | cons t ts ih =>
    intro f c h
    simp only [observerRun, List.mem_append] at h
    rcases h with h | h
    · by_cases h1 : f.isStartPhaseComplete = false ∧ t > 5000
      · by_cases h2 : f.isMiddlePhaseComplete = false ∧ t > 60000
        · rw [observerTick_both f t h1 h2] at h
          simp at h
          tauto
        · rw [observerTick_early_only f t h1 h2] at h
          simp at h
          tauto
      · by_cases h2 : f.isMiddlePhaseComplete = false ∧ t > 60000
        · rw [observerTick_steady_only f t h1 h2] at h
          simp at h
          tauto
        · rw [observerTick_none f t h1 h2] at h
          simp at h
    · exact ih _ c h

/-- C8: in lightweight mode (`checkInterval = 0`) the monitor samples
exactly once immediately at start, the early (5 s) and steady-state (60 s)
checkpoints each fire at most once no matter how many observer ticks occur,
and exactly one final sample is taken on process close, after all other
checks and before the result is finalized. -/
theorem C8_lightweight_checkpoints (ticks : List Nat) :
    (lightweightChecks ticks).count CheckTag.start = 1 ∧
    (lightweightChecks ticks).count CheckTag.early ≤ 1 ∧
    (lightweightChecks ticks).count CheckTag.steady ≤ 1 ∧
    (lightweightChecks ticks).count CheckTag.final = 1 ∧
    (lightweightChecks ticks).head? = some CheckTag.start ∧
    (lightweightChecks ticks).getLast? = some CheckTag.final := by
  have hearly := observer_early_at_most_once ticks initFlags
  have hsteady := observer_steady_at_most_once ticks initFlags
  have honly := observer_only_early_steady ticks initFlags
  have hstart : (observerRun initFlags ticks).count CheckTag.start = 0 := by
    rw [List.count_eq_zero]
    intro h
    rcases honly _ h with h' | h' <;> simp at h'
  have hfinal : (observerRun initFlags ticks).count CheckTag.final = 0 := by
    rw [List.count_eq_zero]
    intro h
    rcases honly _ h with h' | h' <;> simp at h'
  refine ⟨?_, ?_, ?_, ?_, ?_, ?_⟩
  · simp [lightweightChecks, List.count_cons, List.count_append, hstart]
  · simp only [lightweightChecks, List.count_cons, List.count_append]
    simpa using hearly.1
  · simp only [lightweightChecks, List.count_cons, List.count_append]
    simpa using hsteady.1
  · simp [lightweightChecks, List.count_cons, List.count_append, hfinal]
  · simp [lightweightChecks]
  · show ((CheckTag.start :: observerRun initFlags ticks) ++ [CheckTag.final]).getLast? = _
    rw [List.getLast?_concat]

/-- `split` never returns an empty list of pieces. -/
theorem splitOnChar_ne_nil (sep : Char) : ∀ s : List Char, splitOnChar sep s ≠ [] := by
  intro s
  match s with
  | [] => simp [splitOnChar]
  | c :: cs =>
    by_cases h : c = sep
    · simp [splitOnChar, h]
    · simp only [splitOnChar, h, if_false, reduceIte]
      match hm : splitOnChar sep cs with
      | [] => simp
      | p :: ps => simp

/-- Joining the pieces of `split` with the separator restores the string. -/
theorem joinChar_splitOnChar (sep : Char) : ∀ s : List Char,
    joinChar sep (splitOnChar sep s) = s := by
  intro s
  induction s with
  | nil => rfl
  | cons c cs ih =>
    by_cases h : c = sep
    · have hne := splitOnChar_ne_nil sep cs
      simp only [splitOnChar, h, if_pos, reduceIte]
      match hm : splitOnChar sep cs with
      | [] => exact absurd hm hne
      | p :: ps =>
        rw [hm] at ih
        simp only [joinChar]
        rw [ih]
        rfl
    · simp only [splitOnChar, h, if_false, reduceIte]
      match hm : splitOnChar sep cs with
      | [] => exact absurd hm (splitOnChar_ne_nil sep cs)
      | [p] =>
        rw [hm] at ih
        simp only [joinChar] at ih ⊢
        rw [ih]
      | p :: q :: ps =>
        rw [hm] at ih
        simp only [joinChar] at ih ⊢
        rw [List.cons_append, ih]

/-- No piece of `split` contains the separator. -/
theorem splitOnChar_no_sep (sep : Char) : ∀ s : List Char,
    ((splitOnChar sep s).all fun p => !(p.contains sep)) = true := by
  intro s
  induction s with
  | nil => rfl
  | cons c cs ih =>
    by_cases h : c = sep
    · have hnil : (!([] : List Char).contains sep) = true := rfl
      simp only [splitOnChar, h, if_pos, reduceIte, List.all_cons, hnil, Bool.true_and]
      exact ih
    · simp only [splitOnChar, h, if_false, reduceIte]
      match hm : splitOnChar sep cs with
      | [] => exact absurd hm (splitOnChar_ne_nil sep cs)
      | p :: ps =>
        rw [hm] at ih
        simp only [List.all_cons, Bool.and_eq_true] at ih ⊢
        refine ⟨?_, ih.2⟩
        simp only [List.contains_cons, Bool.not_or, Bool.and_eq_true, Bool.not_eq_true',
          beq_eq_false_iff_ne]
        refine ⟨fun hc => h hc.symm, ?_⟩
        simpa [Bool.not_eq_true'] using ih.1

/-- The first piece of `split` is the maximal separator-free prefix. -/
theorem splitOnChar_head (sep : Char) : ∀ s : List Char,
    (splitOnChar sep s).headI = s.takeWhile (fun c => c != sep) := by
  intro s
  induction s with
  | nil => rfl
  | cons c cs ih =>
    by_cases h : c = sep
    · simp [splitOnChar, h, List.takeWhile]
    · simp only [splitOnChar, h, if_false, reduceIte]
      match hm : splitOnChar sep cs with
      | [] => exact absurd hm (splitOnChar_ne_nil sep cs)
      | p :: ps =>
        rw [hm] at ih
        simp only [List.headI] at ih ⊢
        rw [List.takeWhile_cons]
        have hb : (c != sep) = true := by simp [bne_iff_ne]; exact h
        rw [hb]
        simp only [if_pos, reduceIte]
        rw [ih]

/-- C9: a string command is tokenized by splitting on every single space
character: the executable is the maximal space-free prefix (the substring
before the first space), the pieces contain no space (so quoting is not
honored and consecutive spaces yield empty-string arguments), and joining
the executable and the arguments back with single spaces restores the
original command string. -/
theorem C9_command_split_on_spaces (s : List Char) :
    joinChar ' ' ((parseCommand s).1 :: (parseCommand s).2) = s ∧
    (parseCommand s).1 = s.takeWhile (fun c => c != ' ') ∧
    (((parseCommand s).1 :: (parseCommand s).2).all fun p => !(p.contains ' ')) = true := by
  have hne := splitOnChar_ne_nil ' ' s
  have hj := joinChar_splitOnChar ' ' s
  have hn := splitOnChar_no_sep ' ' s
  have hh := splitOnChar_head ' ' s
  match hm : splitOnChar ' ' s with
  | [] => exact absurd hm hne
  | p :: ps =>
    rw [hm] at hj hn hh
    have hp : parseCommand s = (p, ps) := by
      simp [parseCommand, hm]
    rw [hp]
    exact ⟨hj, by rw [← hh]; rfl, hn⟩

/-- Decimal digit characters are digits. -/
theorem digitChar_isDigit (d : Nat) : (digitChar d).isDigit = true := by
  by_cases h0 : d = 0
  · simp [digitChar, h0]
  · by_cases h1 : d = 1
    · simp [digitChar, h1]
    · by_cases h2 : d = 2
      · simp [digitChar, h0, h2]
      · by_cases h3 : d = 3
        · simp [digitChar, h0, h1, h3]
        · by_cases h4 : d = 4
          · simp [digitChar, h0, h1, h2, h4]
          · by_cases h5 : d = 5
            · simp [digitChar, h0, h1, h2, h3, h5]
            · by_cases h6 : d = 6
              · simp [digitChar, h0, h1, h2, h3, h4, h6]
              · by_cases h7 : d = 7
                · simp [digitChar, h0, h1, h2, h3, h4, h5, h7]
                · by_cases h8 : d = 8
                  · simp [digitChar, h0, h1, h2, h3, h4, h5, h6, h8]
                  · simp [digitChar, h0, h1, h2, h3, h4, h5, h6, h7, h8]

/-- The value of a decimal digit character, for digits below ten. -/
theorem digitVal_digitChar (d : Nat) (h : d < 10) : digitVal (digitChar d) = d := by
  interval_cases d <;> rfl

/-- Every character in a decimal rendering is a digit. -/
theorem toDecimal_all_digits (n : Nat) : ∀ c ∈ toDecimal n, c.isDigit = true := by
  induction n using Nat.strong_induction_on with
  | _ n ih =>
    intro c hc
    rw [toDecimal] at hc
    by_cases h : n < 10
    · simp only [dif_pos h, List.mem_singleton] at hc
      rw [hc]
      exact digitChar_isDigit n
    · simp only [dif_neg h, List.mem_append, List.mem_singleton] at hc
      rcases hc with hc | hc
      · exact ih (n / 10) (Nat.div_lt_self (by omega) (by omega)) c hc
      · rw [hc]
        exact digitChar_isDigit (n % 10)

/-- A decimal rendering is never empty. -/
theorem toDecimal_ne_nil (n : Nat) : toDecimal n ≠ [] := by
  rw [toDecimal]
  by_cases h : n < 10
  · simp [dif_pos h]
  · simp [dif_neg h]

/-- Appending one digit multiplies the parsed value by ten and adds the
digit. -/
theorem digitsVal_append_singleton (l : List Char) (c : Char) :
    digitsVal (l ++ [c]) = 10 * digitsVal l + digitVal c := by
  simp [digitsVal, List.foldl_append]

/-- `parseInt` of the decimal rendering of `n` gives back `n`. -/
theorem digitsVal_toDecimal (n : Nat) : digitsVal (toDecimal n) = n := by
  induction n using Nat.strong_induction_on with
  | _ n ih =>
    rw [toDecimal]
    by_cases h : n < 10
    · simp only [dif_pos h, digitsVal, List.foldl_cons, List.foldl_nil]
      rw [digitVal_digitChar n h]
      omega
    · rw [dif_neg h, digitsVal_append_singleton,
        ih (n / 10) (Nat.div_lt_self (by omega) (by omega)),
        digitVal_digitChar (n % 10) (Nat.mod_lt n (by omega))]
      omega

/-- `takeWhile`/`dropWhile` on a list that starts with a block satisfying
the predicate, followed by a list whose head (if any) fails it. -/
theorem takeWhile_dropWhile_block (p : Char → Bool) :
    ∀ (l1 l2 : List Char), (∀ c ∈ l1, p c = true) →
      (∀ c, l2.head? = some c → p c = false) →
      (l1 ++ l2).takeWhile p = l1 ∧ (l1 ++ l2).dropWhile p = l2 := by
  intro l1
  induction l1 with
  | nil =>
    intro l2 _ h2
    match l2 with
    | [] => exact ⟨rfl, rfl⟩
    | c :: cs =>
      have := h2 c rfl
      constructor
      · simp [List.takeWhile_cons, this]
      · simp [List.dropWhile_cons, this]
  | cons a l1 ih =>
    intro l2 h1 h2
    have ha : p a = true := h1 a (by simp)
    obtain ⟨iht, ihd⟩ := ih l2 (fun c hc => h1 c (by simp [hc])) h2
    constructor
    · simp [List.takeWhile_cons, ha, iht]
    · simp [List.dropWhile_cons, ha, ihd]

/-- Greedy digit parsing of a decimal rendering followed by a non-digit:
value and rest are recovered exactly. -/
theorem parseNatPrefix_toDecimal (n : Nat) (rest : List Char)
    (h : ∀ c, rest.head? = some c → c.isDigit = false) :
    parseNatPrefix (toDecimal n ++ rest) = some (n, rest) := by
  obtain ⟨ht, hd⟩ := takeWhile_dropWhile_block Char.isDigit (toDecimal n) rest
    (toDecimal_all_digits n) h
  simp only [parseNatPrefix, ht, hd]
  rw [if_neg (by simp [List.isEmpty_iff, toDecimal_ne_nil n])]
  rw [digitsVal_toDecimal]

/-- Matching a literal prefix consumes exactly that prefix. -/
theorem expectLit_append (pat : List Char) : ∀ rest : List Char,
    expectLit pat (pat ++ rest) = some rest := by
  induction pat with
  | nil => intro rest; rfl
  | cons c cs ih => intro rest; simp [expectLit, ih]

/-- The anchored matcher accepts a freshly formatted sample line and
recovers its two integers. -/
theorem matchAt_sampleLine (e m : Nat) :
    matchAt (sampleLineText e m) = some { timestamp := e, memory := m } := by
  have h1 : parseNatPrefix (toDecimal e ++ ("s] Memory: ".toList
        ++ (toDecimal m ++ "MB".toList)))
      = some (e, "s] Memory: ".toList ++ (toDecimal m ++ "MB".toList)) :=
    parseNatPrefix_toDecimal e _ (fun c hc => by
      simp only [List.cons_append, List.head?] at hc
      cases hc
      rfl)
  have h2 : expectLit "s] Memory: ".toList ("s] Memory: ".toList
        ++ (toDecimal m ++ "MB".toList)) = some (toDecimal m ++ "MB".toList) :=
    expectLit_append _ _
  have h3 : parseNatPrefix (toDecimal m ++ "MB".toList) = some (m, "MB".toList) :=
    parseNatPrefix_toDecimal m _ (fun c hc => by
      simp only [List.head?] at hc
      cases hc
      rfl)
  have h4 : expectLit ['M', 'B'] ['M', 'B'] = some [] := rfl
  simp at h1 h2 h3
  simp only [sampleLineText]
  simp [matchAt, h1, h2, h3, h4]

/-- The leftmost-match search succeeds immediately on a sample line. -/
theorem findMatch_sampleLine (e m : Nat) :
    findMatch (sampleLineText e m) = some { timestamp := e, memory := m } := by
  have h := matchAt_sampleLine e m
  simp only [sampleLineText] at h ⊢
  simp at h
  simp [findMatch, h]

/-- A sample line contains no newline character. -/
theorem sampleLineText_no_newline (e m : Nat) : '\n' ∉ sampleLineText e m := by
  intro hmem
  have hsplit : '\n' = '[' ∨ '\n' ∈ toDecimal e ∨ '\n' ∈ "s] Memory: ".toList
      ∨ '\n' ∈ toDecimal m ∨ '\n' ∈ "MB".toList := by
    simpa only [sampleLineText, List.mem_cons, List.mem_append, or_assoc] using hmem
  rcases hsplit with h | h | h | h | h
  · exact absurd h (by decide)
  · exact absurd (toDecimal_all_digits e _ h) (by decide)
  · exact absurd h (by decide)
  · exact absurd (toDecimal_all_digits m _ h) (by decide)
  · exact absurd h (by decide)

/-- Splitting a string that does not contain the separator leaves it
whole. -/
theorem splitOnChar_of_not_mem (sep : Char) : ∀ s : List Char, sep ∉ s →
    splitOnChar sep s = [s] := by
  intro s
  induction s with
  | nil => intro _; rfl
  | cons c cs ih =>
    intro h
    have hc : ¬c = sep := fun he => h (by simp [he])
    have hcs : sep ∉ cs := fun hm => h (by simp [hm])
    simp only [splitOnChar, hc, if_false, reduceIte, ih hcs]

/-- Splitting distributes over a separator occurrence. -/
theorem splitOnChar_append_sep (sep : Char) (b : List Char) : ∀ a : List Char,
    splitOnChar sep (a ++ sep :: b) = splitOnChar sep a ++ splitOnChar sep b := by
  intro a
  induction a with
  | nil => simp [splitOnChar]
  | cons c cs ih =>
    by_cases h : c = sep
    · simp only [List.cons_append, splitOnChar, h, if_pos, reduceIte, List.append_eq, ih]
    · simp only [List.cons_append, splitOnChar, h, if_false, reduceIte, List.append_eq, ih]
      match hm : splitOnChar sep cs with
      | [] => exact absurd hm (splitOnChar_ne_nil sep cs)
      | p :: ps => simp

/-- C3 counterexample: a child that writes the text
`[1s] Memory: 42MB` to stdout produces the log line
`[stdout] [1s] Memory: 42MB`; the unanchored regex matches inside it, so
extraction yields a spurious sample although the monitor recorded none. -/
theorem C3_spurious_sample_from_stdout :
    recordedPoints [LogEvent.other ("[stdout] [1s] Memory: 42MB".toList)] = [] ∧
    extractMemoryData (logContent [LogEvent.other ("[stdout] [1s] Memory: 42MB".toList)])
      = [{ timestamp := 1, memory := 42 }] := by
  constructor
  · rfl
  · rfl

/-- C3 (amended): parsing the run's log content with the fixed regex
`\[(\d+)s\] Memory: (\d+)MB` yields exactly the sequence of samples the
monitor recorded, in recording order — provided no non-sample log line
(in particular no child stdout/stderr content written into the log)
contains a substring matching the regex. -/
theorem C3_log_roundtrip :
    ∀ evs : List LogEvent, evs.all lineMatchFree = true →
      extractMemoryData (logContent evs) = recordedPoints evs := by
  intro evs
  induction evs with
  | nil => intro _; rfl
  | cons ev evs ih =>
    intro h
    rw [List.all_cons, Bool.and_eq_true] at h
    have hstep : logContent (ev :: evs) = lineText ev ++ '\n' :: logContent evs := rfl
    rw [hstep]
    simp only [extractMemoryData, splitOnChar_append_sep '\n' (logContent evs) (lineText ev),
      List.filterMap_append]
    match ev with
    | LogEvent.sample e m =>
      rw [show lineText (LogEvent.sample e m) = sampleLineText e m from rfl,
        splitOnChar_of_not_mem '\n' (sampleLineText e m) (sampleLineText_no_newline e m)]
      simp only [List.filterMap_cons, List.filterMap_nil, findMatch_sampleLine]
      rw [← extractMemoryData, ih h.2]
      rfl
    | LogEvent.other s =>
      have hnone : ∀ p ∈ splitOnChar '\n' s, findMatch p = none := by
        have h1 := h.1
        simp only [lineMatchFree, List.all_eq_true, Option.isNone_iff_eq_none] at h1
        exact h1
      rw [show lineText (LogEvent.other s) = s from rfl,
        List.filterMap_eq_nil_iff.mpr hnone, List.nil_append,
        ← extractMemoryData, ih h.2]
      rfl

/-- C3 witness: a run whose log holds the header lines, one sample line
`[3s] Memory: 57MB`, a benign stdout line and the completion lines parses
back to exactly the one recorded sample. -/
theorem C3_log_roundtrip_witness :
    extractMemoryData (logContent
      [LogEvent.other ("Starting ETL job at 2025-01-01T00:00:00.000Z".toList),
       LogEvent.other ("Memory limit set to 500MB".toList),
       LogEvent.sample 3 57,
       LogEvent.other ("[stdout] hello world".toList),
       LogEvent.other ("ETL job completed with exit code 0 after 4s".toList),
       LogEvent.other ("Memory usage: avg 57MB, max 57MB".toList)])
      = [{ timestamp := 3, memory := 57 }] :=
  C3_log_roundtrip _ (by decide)

end Emm
